import Mathlib

/-!
Verification of the `slogtrace` exporter (`src/slogtrace/exporter.go`):
an OpenTelemetry span exporter that turns batches of finished spans into
`slog` records, stable-sorts them by timestamp and hands them one at a
time to the logging backend.

Shallow embedding conventions:
  * `time.Time` values are modelled as `Int` ticks (nanoseconds); the Go
    comparator only uses equality and `Before`, i.e. the total order on ticks.
  * `float64` values are opaque to the exporter: it never computes with
    them, it only carries them or renders them through `fmt`'s `%v` verb,
    so a float is modelled by its `%v` rendering (`GoFloat`).
  * the logging backend `slog.Default().Handler().Handle` is modelled as a
    function `Record → Option String` (`some err` = the handler failed).
  * `attribute.Value` kinds beyond the eight matched by the converter's
    switch (e.g. `INVALID` or future kinds) are modelled by the `unknown`
    constructor; the switch has no arm for them.
-/

namespace SlogExporter

/-- A Go `float64`, opaque except for its `fmt` `%v` rendering. -/
structure GoFloat where
  render : String
deriving DecidableEq, Repr

/-- The type `attribute.Value`: the tagged union of OpenTelemetry attribute values.
`unknown` stands for `INVALID` and any future kind the converter's switch
does not match. -/
inductive AttrValue where
  | bool (b : Bool)
  | int64 (i : Int)
  | float64 (f : GoFloat)
  | string (s : String)
  | boolSlice (bs : List Bool)
  | int64Slice (xs : List Int)
  | float64Slice (fs : List GoFloat)
  | stringSlice (ss : List String)
  | unknown (tag : Nat)
deriving DecidableEq, Repr

/-- The type `attribute.KeyValue`. -/
structure KeyValue where
  key : String
  value : AttrValue
deriving DecidableEq, Repr

/-- The value of a `slog.Attr` as produced by this exporter
(`slog.Bool`, `slog.Int64`, `slog.Float64`, `slog.String`). -/
inductive SlogValue where
  | bool (b : Bool)
  | int64 (i : Int)
  | float64 (f : GoFloat)
  | string (s : String)
deriving DecidableEq, Repr

/-- A `slog.Attr`. -/
structure SlogAttr where
  key : String
  value : SlogValue
deriving DecidableEq, Repr

/-- Go `fmt` `%v` rendering of a `bool`. -/
def renderBool (b : Bool) : String := if b then "true" else "false"

/-- Go `fmt` `%v` rendering of an `int64` (decimal, `-` sign). -/
def renderInt (i : Int) : String := toString i

/-- Go `fmt` `%v` rendering of a `float64`. -/
def renderFloat (f : GoFloat) : String := f.render

/-- Go `fmt.Sprintf` with the `%+v` verb applied to a slice whose elements
render to `elems`: a bracketed, single-space-separated element list. -/
def goFmtSlice (elems : List String) : String :=
  "[" ++ String.intercalate " " elems ++ "]"

/-- One iteration of the `switch attr.Value.Type()` in `attributesToAttrs`:
the `slog.Attr`s appended for a single input attribute (none for an
unmatched kind). -/
def convertOne (attr : KeyValue) : List SlogAttr :=
  let key := attr.key
  match attr.value with
  | .bool b => [⟨key, .bool b⟩]
  | .int64 i => [⟨key, .int64 i⟩]
  | .float64 f => [⟨key, .float64 f⟩]
  | .string s => [⟨key, .string s⟩]
  | .boolSlice bs => [⟨key, .string (goFmtSlice (bs.map renderBool))⟩]
  | .int64Slice xs => [⟨key, .string (goFmtSlice (xs.map renderInt))⟩]
  | .float64Slice fs => [⟨key, .string (goFmtSlice (fs.map renderFloat))⟩]
  | .stringSlice ss => [⟨key, .string (goFmtSlice ss)⟩]
  | .unknown _ => []

/-- Function `attributesToAttrs` from `src/slogtrace/exporter.go`: the loop over the
input attributes, appending the converted form of each. -/
def attributesToAttrs : List KeyValue → List SlogAttr
  | [] => []
  | attr :: rest => convertOne attr ++ attributesToAttrs rest

/-- Whether an attribute value kind is one of the eight cases of the
converter's switch. -/
def recognized : AttrValue → Bool
  | .unknown _ => false
  | _ => true

/-- Helper for `durationString`: Go's `fmtFrac`. Processes `prec` decimal
digits of `v` from least significant up, prepending each to `acc` once a
nonzero digit has been seen, then a decimal point if anything was printed;
returns the built string and the remaining value. -/
def fmtFracAux : Nat → Nat → Bool → String → String × Nat
  | 0, v, pr, acc => (if pr then "." ++ acc else acc, v)
  | i + 1, v, pr, acc =>
    let digit := v % 10
    let pr2 := pr || decide (digit ≠ 0)
    let acc2 := if pr2 then (Nat.digitChar digit).toString ++ acc else acc
    fmtFracAux i (v / 10) pr2 acc2

/-- Go's `time.Duration.String()`: the human-readable rendering of a
duration given in nanoseconds ("2s", "1.5ms", "2h45m0s", ...). -/
def durationString (d : Int) : String :=
  let u : Nat := d.natAbs
  let body :=
    if u < 1000000000 then
      if u = 0 then "0s"
      else
        let sp : String × Nat :=
          if u < 1000 then ("ns", 0)
          else if u < 1000000 then ("µs", 3)
          else ("ms", 6)
        let fr := fmtFracAux sp.2 u false sp.1
        toString fr.2 ++ fr.1
    else
      let fr := fmtFracAux 9 u false "s"
      let s1 := toString (fr.2 % 60) ++ fr.1
      let v2 := fr.2 / 60
      if v2 > 0 then
        let s2 := toString (v2 % 60) ++ "m" ++ s1
        let v3 := v2 / 60
        if v3 > 0 then toString v3 ++ "h" ++ s2 else s2
      else s1
  if d < 0 then "-" ++ body else body

/-- The two `slog` levels this exporter ever assigns
(`slog.LevelInfo`, `slog.LevelError`). -/
inductive Level where
  | info
  | error
deriving DecidableEq, Repr

/-- The `codes.Code` of a span status. -/
inductive StatusCode where
  | unset
  | ok
  | error
deriving DecidableEq, Repr

/-- An `sdk/trace.Event`: name, timestamp, attributes. -/
structure Event where
  name : String
  time : Int
  attributes : List KeyValue
deriving DecidableEq, Repr

/-- The part of a `trace.ReadOnlySpan` the exporter reads. -/
structure Span where
  name : String
  startTime : Int
  endTime : Int
  statusCode : StatusCode
  attributes : List KeyValue
  events : List Event
deriving DecidableEq, Repr

/-- A `slog.Record` as built by the exporter (the `pc` argument is always 0
and is dropped). -/
structure Record where
  time : Int
  level : Level
  msg : String
  attrs : List SlogAttr
deriving DecidableEq, Repr

/-- The level derived for a span: `LevelError` when the status code is
`codes.Error`, else `LevelInfo`. -/
def spanLevel (span : Span) : Level :=
  if span.statusCode = .error then .error else .info

/-- The records one iteration of the span loop in `ExportSpans` appends:
the span's own record (start time, derived level, name, a synthesized
`duration` attribute followed by the converted span attributes), then one
record per event (event time, inherited level, event name, converted event
attributes). -/
def buildSpanRecords (span : Span) : List Record :=
  let level := spanLevel span
  { time := span.startTime, level := level, msg := span.name,
    attrs := SlogAttr.mk "duration"
        (.string (durationString (span.endTime - span.startTime)))
      :: attributesToAttrs span.attributes }
    :: span.events.map (fun event =>
      { time := event.time, level := level, msg := event.name,
        attrs := attributesToAttrs event.attributes })

/-- All records built from a batch, in traversal order (spans in input
order, each span's record followed by its events' records). -/
def buildRecords : List Span → List Record
  | [] => []
  | span :: rest => buildSpanRecords span ++ buildRecords rest

/-- The sort order induced by the comparator passed to
`slices.SortStableFunc` (0 on equal times, -1 when `a.Time.Before(b.Time)`,
else 1): ascending timestamps. -/
def recordLE (a b : Record) : Bool := a.time ≤ b.time

/-- The call to `slices.SortStableFunc`: a stable sort of the records by timestamp. -/
def sortRecords (records : List Record) : List Record :=
  records.mergeSort recordLE

/-- The delivery loop of `ExportSpans`: hand each record to the backend in
order; stop at the first error. Returns the records the backend accepted,
the records the backend was handed at all, and the first error if any. -/
def deliverRecords (handle : Record → Option String) :
    List Record → List Record × List Record × Option String
  | [] => ([], [], none)
  | record :: rest =>
    match handle record with
    | some err => ([], [record], some err)
    | none =>
      let r := deliverRecords handle rest
      (record :: r.1, record :: r.2.1, r.2.2)

/-- The exporter's state: the `stopped` flag (its `sync.RWMutex` guard has
no sequential content) plus the attribute-filter capability.

The `filter` field is modelled from the spec: the repository's constructor
takes an optional `attribute.Filter` (see the caller in the tests); the
capability is held for the surrounding pipeline and never invoked by the
exporter itself. -/
structure Exporter where
  stopped : Bool
  filter : Option (String → AttrValue → Bool)

/-- The observable outcome of one `ExportSpans` call: the returned error
(`none` = success), the records delivered to the backend, and the records
the backend was handed at all. -/
structure ExportResult where
  err : Option String
  delivered : List Record
  attempted : List Record
deriving DecidableEq, Repr

/-- Function `ExportSpans`: return early (success, nothing delivered) when stopped
or when the batch is empty; otherwise build one record per span and per
event, stable-sort by timestamp, and deliver in order until the first
backend error. -/
def ExportSpans (e : Exporter) (handle : Record → Option String)
    (spans : List Span) : ExportResult :=
  if e.stopped then ⟨none, [], []⟩
  else if spans.isEmpty then ⟨none, [], []⟩
  else
    let sorted := sortRecords (buildRecords spans)
    let r := deliverRecords handle sorted
    ⟨r.2.2, r.1, r.2.1⟩

/-- The error a Go context reports once done. -/
inductive CtxErr where
  | canceled
  | deadlineExceeded
deriving DecidableEq, Repr

/-- A Go `context.Context` as `Shutdown` observes it: whether it is already
done at call time, and with which error. -/
structure Context where
  doneErr : Option CtxErr
deriving DecidableEq, Repr

/-- Function `Shutdown`: set the stopped flag unconditionally, then report the
context's error when the context is already done, else success. -/
def Shutdown (e : Exporter) (ctx : Context) : Exporter × Option CtxErr :=
  let stoppedExporter : Exporter := { e with stopped := true }
  match ctx.doneErr with
  | some err => (stoppedExporter, some err)
  | none => (stoppedExporter, none)

/-- Modelled from the spec: the repository's constructor `New` accepts an
optional attribute-filter capability (`nil` meaning include every
attribute) and never fails. The copy of `src/slogtrace/exporter.go` here
shows the zero-argument form, while the test caller constructs the
exporter with a filter argument; the spec's construction contract (an
optional predicate, stored, unused by the core, construction always
succeeds) is what is modelled. -/
def New (filter : Option (String → AttrValue → Bool)) :
    Except String Exporter :=
  Except.ok { stopped := false, filter := filter }

/-- Sample event whose own attributes contain the key "duration". -/
def durEvent : Event :=
  { name := "ev", time := 1, attributes := [⟨"duration", .string "grr"⟩] }

/-- Sample span carrying `durEvent`. -/
def durSpan : Span :=
  { name := "s", startTime := 0, endTime := 5, statusCode := .unset,
    attributes := [], events := [durEvent] }

/-- Sample span with one event, used to exercise the sort and the delivery
loop on a two-record batch. -/
def exSpanW : Span :=
  { name := "w", startTime := 0, endTime := 7, statusCode := .ok,
    attributes := [], events := [{ name := "boom", time := 3, attributes := [] }] }

/-- The record `ExportSpans` builds for `exSpanW` itself. -/
def exSpanRecordW : Record :=
  { time := 0, level := .info, msg := "w",
    attrs := [⟨"duration", .string "7ns"⟩] }

/-- The record `ExportSpans` builds for the event of `exSpanW`. -/
def exEventRecordW : Record :=
  { time := 3, level := .info, msg := "boom", attrs := [] }

/-- A backend that fails exactly on the record whose message is "boom". -/
def exHandleFail : Record → Option String :=
  fun r => if r.msg == "boom" then some "backend failure" else none

/-- A backend that accepts every record. -/
def exHandleOk : Record → Option String := fun _ => none

/-- A span with error status and one event, exercising the level mapping. -/
def exSpanErr : Span :=
  { name := "e", startTime := 0, endTime := 2, statusCode := .error,
    attributes := [], events := [{ name := "ee", time := 1, attributes := [] }] }

theorem recordLE_trans (a b c : Record) :
    recordLE a b → recordLE b c → recordLE a c := by
  simp only [recordLE, decide_eq_true_eq]
  omega

theorem recordLE_total (a b : Record) : recordLE a b || recordLE b a := by
  simp only [recordLE, Bool.or_eq_true, decide_eq_true_eq]
  omega

theorem sortRecords_perm (l : List Record) : (sortRecords l).Perm l :=
  List.mergeSort_perm l recordLE

theorem sortRecords_sorted (l : List Record) :
    (sortRecords l).Pairwise (fun a b => a.time ≤ b.time) := by
  have h := List.sorted_mergeSort recordLE_trans recordLE_total l
  exact h.imp (fun hab => by simpa [recordLE] using hab)

theorem sortRecords_filter_time (l : List Record) (t : Int) :
    (sortRecords l).filter (fun r => r.time == t)
      = l.filter (fun r => r.time == t) := by
  have hmem : ∀ r ∈ l.filter (fun r => r.time == t), r.time = t := by
    intro r hr
    simpa using List.of_mem_filter hr
  have hpw : (l.filter (fun r => r.time == t)).Pairwise
      (fun a b => recordLE a b = true) := by
    apply List.pairwise_of_forall_mem_list
    intro a ha b hb
    simp [recordLE, hmem a ha, hmem b hb]
  have hsub : List.Sublist (l.filter (fun r => r.time == t))
      (List.mergeSort l recordLE) :=
    List.sublist_mergeSort recordLE_trans recordLE_total hpw
      (List.filter_sublist l)
  have hself : (l.filter (fun r => r.time == t)).filter (fun r => r.time == t)
      = l.filter (fun r => r.time == t) :=
    List.filter_eq_self.mpr (by
      intro a ha
      simp [hmem a ha])
  have hsub2 := hsub.filter (fun r => r.time == t)
  rw [hself] at hsub2
  have hperm : ((List.mergeSort l recordLE).filter (fun r => r.time == t)).Perm
      (l.filter (fun r => r.time == t)) :=
    (List.mergeSort_perm l recordLE).filter _
  exact (hsub2.eq_of_length hperm.length_eq.symm).symm

theorem deliverRecords_all_ok (handle : Record → Option String)
    (l : List Record) (h : ∀ r ∈ l, handle r = none) :
    deliverRecords handle l = (l, l, none) := by
  induction l with
  | nil => rfl
  | cons r rest ih =>
    have hr := h r (by simp)
    simp [deliverRecords, hr, ih (fun x hx => h x (List.mem_cons_of_mem r hx))]

theorem deliverRecords_attempted_take (handle : Record → Option String)
    (l : List Record) :
    (deliverRecords handle l).2.1
      = l.take (deliverRecords handle l).2.1.length := by
  induction l with
  | nil => rfl
  | cons r rest ih =>
    cases hr : handle r with
    | some e => simp [deliverRecords, hr]
    | none =>
      simp only [deliverRecords, hr, List.length_cons, List.take_succ_cons]
      exact congrArg (r :: ·) ih

theorem deliverRecords_split (handle : Record → Option String)
    (pre post : List Record) (r : Record) (errMsg : String)
    (hpre : ∀ x ∈ pre, handle x = none) (hr : handle r = some errMsg) :
    deliverRecords handle (pre ++ r :: post) = (pre, pre ++ [r], some errMsg) := by
  induction pre with
  | nil => simp [deliverRecords, hr]
  | cons x xs ih =>
    have hx := hpre x (by simp)
    have ih2 := ih (fun y hy => hpre y (List.mem_cons_of_mem x hy))
    simp [deliverRecords, hx, ih2]

theorem attributesToAttrs_append (l1 l2 : List KeyValue) :
    attributesToAttrs (l1 ++ l2)
      = attributesToAttrs l1 ++ attributesToAttrs l2 := by
  induction l1 with
  | nil => rfl
  | cons a rest ih => simp [attributesToAttrs, ih]

theorem convertOne_key (kv : KeyValue) (a : SlogAttr) (h : a ∈ convertOne kv) :
    a.key = kv.key := by
  cases kv with
  | mk k v => cases v <;> simp_all [convertOne]

theorem convertOne_length (kv : KeyValue) : (convertOne kv).length ≤ 1 := by
  cases kv with
  | mk k v => cases v <;> simp [convertOne]

theorem convertOne_map_key (kv : KeyValue) :
    (convertOne kv).map (fun a => a.key)
      = if recognized kv.value then [kv.key] else [] := by
  cases kv with
  | mk k v => cases v <;> rfl

theorem mem_attributesToAttrs_key (l : List KeyValue) (a : SlogAttr)
    (h : a ∈ attributesToAttrs l) : ∃ kv ∈ l, a.key = kv.key := by
  induction l with
  | nil => simp [attributesToAttrs] at h
  | cons kv rest ih =>
    simp only [attributesToAttrs, List.mem_append] at h
    rcases h with h | h
    · exact ⟨kv, by simp, convertOne_key kv a h⟩
    · obtain ⟨kv2, hm, hk⟩ := ih h
      exact ⟨kv2, List.mem_cons_of_mem _ hm, hk⟩

/-- C1: the exporter is constructible both with and without an
attribute-filter capability — construction always succeeds, yields an
active exporter, and the core never consults the predicate: the outcome of
`ExportSpans` is the same whatever filter the exporter was built with. -/
theorem constructible_with_or_without_filter :
    (∀ filter, ∃ e : Exporter, New filter = Except.ok e ∧ e.stopped = false)
  ∧ (∀ f g stopped handle spans,
      ExportSpans ⟨stopped, f⟩ handle spans
        = ExportSpans ⟨stopped, g⟩ handle spans) :=
  ⟨fun filter => ⟨{ stopped := false, filter := filter }, rfl, rfl⟩,
    fun _ _ _ _ _ => rfl⟩

/-- C5: a sequence-valued attribute of any scalar element kind converts to a
string-valued pair with the original key whose text is the bracketed,
single-space-separated element list with no trailing separator; in
particular the integer sequence [1, 1, 2, 3, 5, 8, 13] renders as the
literal text "[1 1 2 3 5 8 13]". -/
theorem collection_stringification (key : String) :
    (∀ bs : List Bool, attributesToAttrs [⟨key, .boolSlice bs⟩]
      = [⟨key, .string ("[" ++ String.intercalate " " (bs.map renderBool) ++ "]")⟩])
  ∧ (∀ xs : List Int, attributesToAttrs [⟨key, .int64Slice xs⟩]
      = [⟨key, .string ("[" ++ String.intercalate " " (xs.map renderInt) ++ "]")⟩])
  ∧ (∀ fs : List GoFloat, attributesToAttrs [⟨key, .float64Slice fs⟩]
      = [⟨key, .string ("[" ++ String.intercalate " " (fs.map renderFloat) ++ "]")⟩])
  ∧ (∀ ss : List String, attributesToAttrs [⟨key, .stringSlice ss⟩]
      = [⟨key, .string ("[" ++ String.intercalate " " ss ++ "]")⟩])
  ∧ attributesToAttrs [⟨"ints", .int64Slice [1, 1, 2, 3, 5, 8, 13]⟩]
      = [⟨"ints", .string "[1 1 2 3 5 8 13]"⟩] :=
  ⟨fun _ => rfl, fun _ => rfl, fun _ => rfl, fun _ => rfl, by decide⟩

/-- C6: an attribute whose value kind is outside the eight recognized kinds
produces no output pair and no error, while the surrounding attributes are
still converted. -/
theorem unknown_kind_skipped (pre post : List KeyValue) (key : String)
    (tag : Nat) :
    attributesToAttrs (pre ++ ⟨key, AttrValue.unknown tag⟩ :: post)
      = attributesToAttrs pre ++ attributesToAttrs post := by
  rw [attributesToAttrs_append]
  rfl

/-- C7: after a `Shutdown` call has completed (whatever its context and
whatever it returned), any subsequent `ExportSpans` call returns success
and hands zero records to the logging backend, for every batch. -/
theorem post_shutdown_silence (e : Exporter) (ctx : Context)
    (handle : Record → Option String) (spans : List Span) :
    ExportSpans (Shutdown e ctx).1 handle spans
      = { err := none, delivered := [], attempted := [] } := by
  have hstop : (Shutdown e ctx).1.stopped = true := by
    cases h : ctx.doneErr <;> simp [Shutdown, h]
  simp [ExportSpans, hstop]

/-- C8: `Shutdown` always sets the stopped flag, idempotently (a second
call leaves the state unchanged), and returns exactly the context's
cancellation/deadline error when the context is already done at call time,
success otherwise; the flag is set even in the error case. -/
theorem shutdown_sets_flag (e : Exporter) (ctx : Context) :
    (Shutdown e ctx).1.stopped = true
  ∧ (Shutdown e ctx).2 = ctx.doneErr
  ∧ (∀ ctx2 : Context, (Shutdown (Shutdown e ctx).1 ctx2).1 = (Shutdown e ctx).1) := by
  refine ⟨?_, ?_, ?_⟩
  · cases h : ctx.doneErr <;> simp [Shutdown, h]
  · cases h : ctx.doneErr <;> simp [Shutdown, h]
  · intro ctx2
    cases h : ctx.doneErr <;> cases h2 : ctx2.doneErr <;> simp [Shutdown, h, h2]

/-- C10: the converter emits at most one rendered pair per input attribute
and the keys of its output are exactly the keys of the recognized input
attributes, in encounter order — so repeated keys are kept, not
deduplicated, in their original relative order. -/
theorem converter_order_preservation (l : List KeyValue) :
    (attributesToAttrs l).map (fun a => a.key)
      = (l.filter (fun kv => recognized kv.value)).map (fun kv => kv.key)
  ∧ (attributesToAttrs l).length ≤ l.length := by
  induction l with
  | nil => exact ⟨rfl, by simp [attributesToAttrs]⟩
  | cons kv rest ih =>
    constructor
    · simp only [attributesToAttrs, List.map_append, convertOne_map_key,
        List.filter_cons, ih.1]
      cases hrec : recognized kv.value <;> simp
    · have h1 := convertOne_length kv
      have h2 := ih.2
      simp only [attributesToAttrs, List.length_append, List.length_cons]
      omega

/-- C2: on an active exporter, the records `ExportSpans` hands to the
backend form a prefix of the stable-sorted record sequence of the batch;
that sequence is a permutation of the records built by the traversal
(one per span and one per event), is sorted by timestamp non-decreasing,
ties keep their build-traversal order (the equal-timestamp subsequence is
unchanged), and when the backend never fails every built record is
attempted, in exactly that order. -/
theorem exportSpans_ordering (filter : Option (String → AttrValue → Bool))
    (handle : Record → Option String) (spans : List Span) :
    (ExportSpans ⟨false, filter⟩ handle spans).attempted
        = (sortRecords (buildRecords spans)).take
            (ExportSpans ⟨false, filter⟩ handle spans).attempted.length
  ∧ (sortRecords (buildRecords spans)).Perm (buildRecords spans)
  ∧ (sortRecords (buildRecords spans)).Pairwise (fun a b => a.time ≤ b.time)
  ∧ (∀ t : Int, (sortRecords (buildRecords spans)).filter (fun r => r.time == t)
      = (buildRecords spans).filter (fun r => r.time == t))
  ∧ ((∀ r, handle r = none) →
      (ExportSpans ⟨false, filter⟩ handle spans).attempted
        = sortRecords (buildRecords spans)) := by
  refine ⟨?_, sortRecords_perm _, sortRecords_sorted _,
    fun t => sortRecords_filter_time _ t, ?_⟩
  · cases spans with
    | nil => rfl
    | cons a l =>
      show (deliverRecords handle (sortRecords (buildRecords (a :: l)))).2.1 = _
      exact deliverRecords_attempted_take handle _
  · intro hok
    cases spans with
    | nil => simp [ExportSpans, sortRecords, buildRecords]
    | cons a l =>
      show (deliverRecords handle (sortRecords (buildRecords (a :: l)))).2.1 = _
      rw [deliverRecords_all_ok handle _ (fun r _ => hok r)]

/-- C2 witness: the ordering statement instantiated at a concrete
single-span batch with one event and an always-accepting backend. -/
theorem exportSpans_ordering_witness :
    (ExportSpans ⟨false, none⟩ exHandleOk [exSpanW]).attempted
        = (sortRecords (buildRecords [exSpanW])).take
            (ExportSpans ⟨false, none⟩ exHandleOk [exSpanW]).attempted.length
  ∧ (sortRecords (buildRecords [exSpanW])).Perm (buildRecords [exSpanW])
  ∧ (sortRecords (buildRecords [exSpanW])).Pairwise (fun a b => a.time ≤ b.time)
  ∧ (∀ t : Int, (sortRecords (buildRecords [exSpanW])).filter (fun r => r.time == t)
      = (buildRecords [exSpanW]).filter (fun r => r.time == t))
  ∧ ((∀ r, exHandleOk r = none) →
      (ExportSpans ⟨false, none⟩ exHandleOk [exSpanW]).attempted
        = sortRecords (buildRecords [exSpanW])) :=
  exportSpans_ordering none exHandleOk [exSpanW]

/-- C3 counterexample: the claim "records built for a span's events never
carry a duration attribute" fails on the concrete span `durSpan`, whose
event has a user attribute with key "duration": the built event record
carries a "duration" attribute. -/
theorem event_duration_counterexample :
    ((buildSpanRecords durSpan).drop 1).any
      (fun r => r.attrs.any (fun a => a.key == "duration")) = true := by
  decide

/-- C3 (amended): every span-level record's first rendered attribute has
key "duration" and value the span's end time minus start time rendered as
Go's human-readable duration string, followed by the span's own converted
attributes; event records receive exactly the converted event attributes —
no duration is synthesized for them, so an event record carries a
"duration" key only if the event's own attributes contain that key. -/
theorem duration_attribute (span : Span) :
    (buildSpanRecords span).head? = some
      { time := span.startTime, level := spanLevel span, msg := span.name,
        attrs := SlogAttr.mk "duration"
            (.string (durationString (span.endTime - span.startTime)))
          :: attributesToAttrs span.attributes }
  ∧ (buildSpanRecords span).tail = span.events.map (fun event =>
      { time := event.time, level := spanLevel span, msg := event.name,
        attrs := attributesToAttrs event.attributes })
  ∧ (∀ event ∈ span.events, ∀ a ∈ attributesToAttrs event.attributes,
      a.key = "duration" → ∃ kv ∈ event.attributes, kv.key = "duration") := by
  refine ⟨rfl, rfl, ?_⟩
  intro event _ a ha hk
  obtain ⟨kv, hkv, hkey⟩ := mem_attributesToAttrs_key event.attributes a ha
  exact ⟨kv, hkv, by rw [← hkey, hk]⟩

/-- C3 witness: the amended statement instantiated at `durSpan`, the very
span whose event carries a user "duration" attribute. -/
theorem duration_attribute_witness :
    (buildSpanRecords durSpan).head? = some
      { time := durSpan.startTime, level := spanLevel durSpan, msg := durSpan.name,
        attrs := SlogAttr.mk "duration"
            (.string (durationString (durSpan.endTime - durSpan.startTime)))
          :: attributesToAttrs durSpan.attributes }
  ∧ (buildSpanRecords durSpan).tail = durSpan.events.map (fun event =>
      { time := event.time, level := spanLevel durSpan, msg := event.name,
        attrs := attributesToAttrs event.attributes })
  ∧ (∀ event ∈ durSpan.events, ∀ a ∈ attributesToAttrs event.attributes,
      a.key = "duration" → ∃ kv ∈ event.attributes, kv.key = "duration") :=
  duration_attribute durSpan

/-- C4: the derived record level of a span is error exactly when the span's
status code is error (info for any other status), and every record built
for the span — its own and each of its events' — carries that same derived
level. -/
theorem severity_mapping (span : Span) :
    ((spanLevel span = Level.error) ↔ span.statusCode = StatusCode.error)
  ∧ (∀ r ∈ buildSpanRecords span, r.level = spanLevel span) := by
  constructor
  · cases h : span.statusCode <;> simp [spanLevel, h]
  · intro r hr
    simp only [buildSpanRecords, List.mem_cons] at hr
    rcases hr with rfl | hr
    · rfl
    · obtain ⟨ev, _, rfl⟩ := List.mem_map.mp hr
      rfl

/-- C4 witness: the severity statement instantiated at a concrete span with
error status and one event. -/
theorem severity_mapping_witness :
    ((spanLevel exSpanErr = Level.error) ↔ exSpanErr.statusCode = StatusCode.error)
  ∧ (∀ r ∈ buildSpanRecords exSpanErr, r.level = spanLevel exSpanErr) :=
  severity_mapping exSpanErr

/-- C9: when the backend accepts every record before position N of the
sorted sequence and fails on the Nth with some error, `ExportSpans` on an
active exporter returns exactly that error, the records before N were
delivered, and the Nth record is the last one the backend is handed — the
records after it are never attempted and nothing is retried or rolled
back. -/
theorem exportSpans_stops_on_error (filter : Option (String → AttrValue → Bool))
    (handle : Record → Option String) (spans : List Span)
    (pre post : List Record) (r : Record) (errMsg : String)
    (hsort : sortRecords (buildRecords spans) = pre ++ r :: post)
    (hpre : ∀ x ∈ pre, handle x = none)
    (hr : handle r = some errMsg) :
    ExportSpans ⟨false, filter⟩ handle spans
      = { err := some errMsg, delivered := pre, attempted := pre ++ [r] } := by
  cases spans with
  | nil =>
    exfalso
    have : ([] : List Record) = pre ++ r :: post := by
      rw [← hsort]
      simp [sortRecords, buildRecords]
    exact List.append_ne_nil_of_right_ne_nil pre (List.cons_ne_nil r post) this.symm
  | cons a l =>
    show (let sorted := sortRecords (buildRecords (a :: l));
      let res := deliverRecords handle sorted;
      ExportResult.mk res.2.2 res.1 res.2.1) = _
    simp only [hsort, deliverRecords_split handle pre post r errMsg hpre hr]

theorem exSort_concrete :
    sortRecords (buildRecords [exSpanW]) = [exSpanRecordW] ++ exEventRecordW :: [] := by
  have hb : buildRecords [exSpanW] = [exSpanRecordW, exEventRecordW] := by decide
  rw [sortRecords, hb]
  exact List.mergeSort_of_sorted (by decide)

/-- C9 witness: a two-record batch (one span, one event) with a backend
that fails on the event record: the span record is delivered, the event
record is attempted and fails, the error is returned. -/
theorem exportSpans_stops_on_error_witness :
    sortRecords (buildRecords [exSpanW]) = [exSpanRecordW] ++ exEventRecordW :: []
  ∧ (∀ x ∈ [exSpanRecordW], exHandleFail x = none)
  ∧ exHandleFail exEventRecordW = some "backend failure"
  ∧ ExportSpans ⟨false, none⟩ exHandleFail [exSpanW]
      = { err := some "backend failure", delivered := [exSpanRecordW],
          attempted := [exSpanRecordW] ++ [exEventRecordW] } :=
  ⟨exSort_concrete, by decide, by decide,
    exportSpans_stops_on_error none exHandleFail [exSpanW] [exSpanRecordW] []
      exEventRecordW "backend failure" exSort_concrete (by decide) (by decide)⟩

end SlogExporter
